import Mathlib

/-!
Shallow embedding of the core of `rusty_hyperliquid_ledger` (an indexing and
analytics service for a perpetuals exchange's trade ledger), together with
theorems settling the specification claims.

Modelling conventions:
* `rust_decimal::Decimal` values are modelled as `Rat` (exact rationals).
  All the arithmetic exercised by the claims (addition, subtraction,
  multiplication, comparison) is exact on `Decimal` within its range, and the
  one division (`return_pct`) is stated at the formula level.
* `HashMap` / `HashSet` state is modelled either as a total function with the
  source's `unwrap_or` default, or as an association list with no duplicate
  keys (the key-set invariant every `HashMap` enjoys).
* `u64` / `usize` fields are modelled as `Nat`; `i64` as `Int` where the sign
  matters.
* Asynchronous HTTP pagination is modelled by quantifying over the sequence of
  pages the endpoint returns; the loop consumes that sequence in order.
-/

namespace Ledger

/-! ## String case mapping

The source lowercases addresses and uppercases symbols through Rust's
`str::to_lowercase` / `str::to_uppercase`. Every string those functions see
here (hex addresses, asset symbols) is ASCII, so they are embedded as the
ASCII case maps, written by structural recursion over the character list so
that proofs can evaluate them. -/

/-- ASCII lower-casing of one character (identity outside `A`..`Z`). -/
def charToLower (c : Char) : Char :=
  if c = 'A' then 'a' else if c = 'B' then 'b' else if c = 'C' then 'c'
  else if c = 'D' then 'd' else if c = 'E' then 'e' else if c = 'F' then 'f'
  else if c = 'G' then 'g' else if c = 'H' then 'h' else if c = 'I' then 'i'
  else if c = 'J' then 'j' else if c = 'K' then 'k' else if c = 'L' then 'l'
  else if c = 'M' then 'm' else if c = 'N' then 'n' else if c = 'O' then 'o'
  else if c = 'P' then 'p' else if c = 'Q' then 'q' else if c = 'R' then 'r'
  else if c = 'S' then 's' else if c = 'T' then 't' else if c = 'U' then 'u'
  else if c = 'V' then 'v' else if c = 'W' then 'w' else if c = 'X' then 'x'
  else if c = 'Y' then 'y' else if c = 'Z' then 'z' else c

/-- ASCII upper-casing of one character (identity outside `a`..`z`). -/
def charToUpper (c : Char) : Char :=
  if c = 'a' then 'A' else if c = 'b' then 'B' else if c = 'c' then 'C'
  else if c = 'd' then 'D' else if c = 'e' then 'E' else if c = 'f' then 'F'
  else if c = 'g' then 'G' else if c = 'h' then 'H' else if c = 'i' then 'I'
  else if c = 'j' then 'J' else if c = 'k' then 'K' else if c = 'l' then 'L'
  else if c = 'm' then 'M' else if c = 'n' then 'N' else if c = 'o' then 'O'
  else if c = 'p' then 'P' else if c = 'q' then 'Q' else if c = 'r' then 'R'
  else if c = 's' then 'S' else if c = 't' then 'T' else if c = 'u' then 'U'
  else if c = 'v' then 'V' else if c = 'w' then 'W' else if c = 'x' then 'X'
  else if c = 'y' then 'Y' else if c = 'z' then 'Z' else c

/-- Source `str::to_lowercase` on ASCII input. -/
def strToLower (s : String) : String :=
  ⟨s.data.map charToLower⟩

/-- Source `str::to_uppercase` on ASCII input. -/
def strToUpper (s : String) : String :=
  ⟨s.data.map charToUpper⟩

/-! ## Asset (src/crates/hl-types/src/asset.rs) -/

set_option maxHeartbeats 1600000 in
/-- Tradeable asset. Mirrors the `Asset` enum: dedicated variants for
known symbols plus an `Other` escape hatch carrying the raw symbol. -/
inductive Asset where
  | Btc | Eth | Sol | Bnb | Xrp | Doge
  | Aave | Uni | Link | Mkr | Comp | Crv | Snx | Ldo | Gmx
  | Avax | Atom | Dot | Ada | Trx | Ltc | Bch | Apt | Sui | Sei | Inj | Near | Ftm | Ton
  | Arb | Op | Matic | Stx | Imx | Zro
  | Axs | Sand | Mana | Gala | Enj | Ygg | Bigtime
  | KPepe | KShib | KFloki | KBonk | Wif | Wld
  | Fil | Ar | Grt | Rune | Rndr | Tia | Pyth
  | Ftt | Ape | Blur | Dydx
  | Cfx | Ark | Trb | Banana | Ordi | Sats | Hype | Move
  | Other (s : String)
deriving Repr

/-- Source `Asset::from_symbol`: case-insensitive match of known symbols, with
unknown symbols preserved verbatim in `Other`. -/
def Asset.fromSymbol (symbol : String) : Asset :=
  match strToUpper symbol with
  | "BTC" => Asset.Btc
  | "ETH" => Asset.Eth
  | "SOL" => Asset.Sol
  | "BNB" => Asset.Bnb
  | "XRP" => Asset.Xrp
  | "DOGE" => Asset.Doge
  | "AAVE" => Asset.Aave
  | "UNI" => Asset.Uni
  | "LINK" => Asset.Link
  | "MKR" => Asset.Mkr
  | "COMP" => Asset.Comp
  | "CRV" => Asset.Crv
  | "SNX" => Asset.Snx
  | "LDO" => Asset.Ldo
  | "GMX" => Asset.Gmx
  | "AVAX" => Asset.Avax
  | "ATOM" => Asset.Atom
  | "DOT" => Asset.Dot
  | "ADA" => Asset.Ada
  | "TRX" => Asset.Trx
  | "LTC" => Asset.Ltc
  | "BCH" => Asset.Bch
  | "APT" => Asset.Apt
  | "SUI" => Asset.Sui
  | "SEI" => Asset.Sei
  | "INJ" => Asset.Inj
  | "NEAR" => Asset.Near
  | "FTM" => Asset.Ftm
  | "TON" => Asset.Ton
  | "ARB" => Asset.Arb
  | "OP" => Asset.Op
  | "MATIC" => Asset.Matic
  | "STX" => Asset.Stx
  | "IMX" => Asset.Imx
  | "ZRO" => Asset.Zro
  | "AXS" => Asset.Axs
  | "SAND" => Asset.Sand
  | "MANA" => Asset.Mana
  | "GALA" => Asset.Gala
  | "ENJ" => Asset.Enj
  | "YGG" => Asset.Ygg
  | "BIGTIME" => Asset.Bigtime
  | "KPEPE" => Asset.KPepe
  | "KSHIB" => Asset.KShib
  | "KFLOKI" => Asset.KFloki
  | "KBONK" => Asset.KBonk
  | "WIF" => Asset.Wif
  | "WLD" => Asset.Wld
  | "FIL" => Asset.Fil
  | "AR" => Asset.Ar
  | "GRT" => Asset.Grt
  | "RUNE" => Asset.Rune
  | "RNDR" => Asset.Rndr
  | "TIA" => Asset.Tia
  | "PYTH" => Asset.Pyth
  | "FTT" => Asset.Ftt
  | "APE" => Asset.Ape
  | "BLUR" => Asset.Blur
  | "DYDX" => Asset.Dydx
  | "CFX" => Asset.Cfx
  | "ARK" => Asset.Ark
  | "TRB" => Asset.Trb
  | "BANANA" => Asset.Banana
  | "ORDI" => Asset.Ordi
  | "SATS" => Asset.Sats
  | "HYPE" => Asset.Hype
  | "MOVE" => Asset.Move
  | _ => Asset.Other symbol

/-- Source `Asset::symbol`: the canonical symbol string of an asset. -/
def Asset.symbol : Asset → String
  | Asset.Btc => "BTC"
  | Asset.Eth => "ETH"
  | Asset.Sol => "SOL"
  | Asset.Bnb => "BNB"
  | Asset.Xrp => "XRP"
  | Asset.Doge => "DOGE"
  | Asset.Aave => "AAVE"
  | Asset.Uni => "UNI"
  | Asset.Link => "LINK"
  | Asset.Mkr => "MKR"
  | Asset.Comp => "COMP"
  | Asset.Crv => "CRV"
  | Asset.Snx => "SNX"
  | Asset.Ldo => "LDO"
  | Asset.Gmx => "GMX"
  | Asset.Avax => "AVAX"
  | Asset.Atom => "ATOM"
  | Asset.Dot => "DOT"
  | Asset.Ada => "ADA"
  | Asset.Trx => "TRX"
  | Asset.Ltc => "LTC"
  | Asset.Bch => "BCH"
  | Asset.Apt => "APT"
  | Asset.Sui => "SUI"
  | Asset.Sei => "SEI"
  | Asset.Inj => "INJ"
  | Asset.Near => "NEAR"
  | Asset.Ftm => "FTM"
  | Asset.Ton => "TON"
  | Asset.Arb => "ARB"
  | Asset.Op => "OP"
  | Asset.Matic => "MATIC"
  | Asset.Stx => "STX"
  | Asset.Imx => "IMX"
  | Asset.Zro => "ZRO"
  | Asset.Axs => "AXS"
  | Asset.Sand => "SAND"
  | Asset.Mana => "MANA"
  | Asset.Gala => "GALA"
  | Asset.Enj => "ENJ"
  | Asset.Ygg => "YGG"
  | Asset.Bigtime => "BIGTIME"
  | Asset.KPepe => "kPEPE"
  | Asset.KShib => "kSHIB"
  | Asset.KFloki => "kFLOKI"
  | Asset.KBonk => "kBONK"
  | Asset.Wif => "WIF"
  | Asset.Wld => "WLD"
  | Asset.Fil => "FIL"
  | Asset.Ar => "AR"
  | Asset.Grt => "GRT"
  | Asset.Rune => "RUNE"
  | Asset.Rndr => "RNDR"
  | Asset.Tia => "TIA"
  | Asset.Pyth => "PYTH"
  | Asset.Ftt => "FTT"
  | Asset.Ape => "APE"
  | Asset.Blur => "BLUR"
  | Asset.Dydx => "DYDX"
  | Asset.Cfx => "CFX"
  | Asset.Ark => "ARK"
  | Asset.Trb => "TRB"
  | Asset.Banana => "BANANA"
  | Asset.Ordi => "ORDI"
  | Asset.Sats => "SATS"
  | Asset.Hype => "HYPE"
  | Asset.Move => "MOVE"
  | Asset.Other s => s

/-- Whether the asset is the `Other` escape hatch. -/
def Asset.isOther : Asset → Bool
  | Asset.Other _ => true
  | _ => false

/-- Rebuild an asset from its `isOther` flag and canonical symbol. Known
symbols round-trip through `fromSymbol`; `Other` keeps its payload. -/
def Asset.ofRepr (isOth : Bool) (s : String) : Asset :=
  if isOth then Asset.Other s else Asset.fromSymbol s

/-- Decidable equality for `Asset` (the source derives `PartialEq`/`Eq`).
Stated through the `(isOther, symbol)` representation, which determines the
asset, so that the decision procedure stays shallow. -/
instance : DecidableEq Asset := fun a b =>
  if h : a.isOther = b.isOther ∧ a.symbol = b.symbol then
    isTrue (by
      have ra : Asset.ofRepr a.isOther a.symbol = a := by
        cases a <;> rfl
      have rb : Asset.ofRepr b.isOther b.symbol = b := by
        cases b <;> rfl
      rw [← ra, ← rb, h.1, h.2])
  else
    isFalse (fun hab => h (by subst hab; exact ⟨rfl, rfl⟩))

/-! ## Side and UserFill (src/crates/hl-types/src/fill.rs) -/

/-- Trade execution side. -/
inductive Side where
  | Buy
  | Sell
deriving DecidableEq, Repr

/-- Source `Side::sign`: +1 for buy, -1 for sell. -/
def Side.sign : Side → Rat
  | Side.Buy => 1
  | Side.Sell => -1

/-- A fill (trade execution) for a user, mirroring `UserFill`. -/
structure UserFill where
  asset : Asset
  timestamp_ms : Nat
  price : Rat
  size : Rat
  side : Side
  fee : Rat
  closed_pnl : Rat
  trade_id : Nat
  order_id : Nat
  crossed : Bool
  direction : String
deriving DecidableEq, Repr

/-- Source `UserFill::notional_value`: price * size. -/
def UserFill.notional_value (f : UserFill) : Rat :=
  f.price * f.size

/-- Source `UserFill::signed_size`: size * side.sign(). -/
def UserFill.signed_size (f : UserFill) : Rat :=
  f.size * f.side.sign

/-- Source `UserFill::net_pnl`: closed_pnl - fee. -/
def UserFill.net_pnl (f : UserFill) : Rat :=
  f.closed_pnl - f.fee

/-! ## Taint tracking (src/crates/hl-indexer/src/taint.rs) -/

/-- Result of analyzing a user's fills for taint, mirroring
`TaintAnalysisResult`. -/
structure TaintAnalysisResult where
  tainted : Bool
  tainted_assets : List Asset
  total_fills : Nat
  builder_fills : Nat
  tainted_fills : Nat
  first_taint_timestamp_ms : Option Nat
deriving DecidableEq, Repr

/-- Per-asset position lifecycle state, mirroring `PositionLifecycleTracker`.
The `positions` HashMap is modelled as a total function with default 0
(the source reads it through `unwrap_or(&Decimal::ZERO)`); the
`tainted_assets` HashMap (whose values are always `true`) is modelled by its
key list, kept duplicate-free. -/
structure PositionLifecycleTracker where
  positions : Asset → Rat
  tainted_assets : List Asset
  first_taint_ms : Option Nat
  total_fills : Nat
  builder_fills : Nat
  tainted_fills : Nat

/-- Source `PositionLifecycleTracker::new` (i.e. `Default::default()`). -/
def PositionLifecycleTracker.new : PositionLifecycleTracker where
  positions := fun _ => 0
  tainted_assets := []
  first_taint_ms := none
  total_fills := 0
  builder_fills := 0
  tainted_fills := 0

/-- Key-set insertion for the `tainted_assets` map: `insert(asset, true)`. -/
def insertKey (l : List Asset) (a : Asset) : List Asset :=
  if a ∈ l then l else l ++ [a]

/-- Source `PositionLifecycleTracker::process_fill`. Returns the updated tracker and
whether this fill caused taint. -/
def PositionLifecycleTracker.process_fill (t : PositionLifecycleTracker)
    (fill : UserFill) (is_builder_fill : Bool) :
    PositionLifecycleTracker × Bool :=
  let t := { t with total_fills := t.total_fills + 1 }
  let current_position := t.positions fill.asset
  let signed_size : Rat :=
    match fill.side with
    | Side.Buy => fill.size
    | Side.Sell => -fill.size
  let new_position := current_position + signed_size
  let t := { t with
    positions := fun a => if a = fill.asset then new_position else t.positions a }
  if is_builder_fill then
    ({ t with builder_fills := t.builder_fills + 1 }, false)
  else
    let was_in_position := current_position ≠ 0
    let is_in_position := new_position ≠ 0
    if was_in_position ∨ is_in_position then
      let t := { t with
        tainted_fills := t.tainted_fills + 1
        tainted_assets := insertKey t.tainted_assets fill.asset
        first_taint_ms := match t.first_taint_ms with
          | none => some fill.timestamp_ms
          | some ms => some ms }
      (t, true)
    else
      (t, false)

/-- Source `PositionLifecycleTracker::is_tainted`: the tainted-assets map is
non-empty. -/
def PositionLifecycleTracker.is_tainted (t : PositionLifecycleTracker) : Bool :=
  !t.tainted_assets.isEmpty

/-- Source `PositionLifecycleTracker::result`. -/
def PositionLifecycleTracker.result (t : PositionLifecycleTracker) :
    TaintAnalysisResult where
  tainted := t.is_tainted
  tainted_assets := t.tainted_assets
  total_fills := t.total_fills
  builder_fills := t.builder_fills
  tainted_fills := t.tainted_fills
  first_taint_timestamp_ms := t.first_taint_ms

/-- Source `PositionLifecycleTracker::get_position`. -/
def PositionLifecycleTracker.get_position (t : PositionLifecycleTracker)
    (asset : Asset) : Rat :=
  t.positions asset

/-- Stable insertion of a fill into a list already sorted ascending by
`timestamp_ms` (the element goes after all keys ≤ its own). -/
def insertByTime (f : UserFill) : List UserFill → List UserFill
  | [] => [f]
  | g :: rest =>
    if g.timestamp_ms ≤ f.timestamp_ms then g :: insertByTime f rest
    else f :: g :: rest

/-- Stable sort ascending by `timestamp_ms`, modelling
`sorted_fills.sort_by_key(|f| f.timestamp_ms)`. -/
def sortFillsByTime : List UserFill → List UserFill
  | [] => []
  | f :: rest => insertByTime f (sortFillsByTime rest)

/-- Fold a list of fills through the tracker (`for fill in sorted_fills`). -/
def processFills (t : PositionLifecycleTracker) (fills : List UserFill)
    (is_builder_fill : UserFill → Bool) : PositionLifecycleTracker :=
  fills.foldl (fun t f => (t.process_fill f (is_builder_fill f)).1) t

/-- An arbitrary sequence of `process_fill` calls, each with its own
builder-classification flag. -/
def processSeq (t : PositionLifecycleTracker)
    (l : List (UserFill × Bool)) : PositionLifecycleTracker :=
  l.foldl (fun t p => (t.process_fill p.1 p.2).1) t

/-- Source `analyze_user_taint`: sort by timestamp ascending, run every fill through
the tracker, return the result. -/
def analyze_user_taint (fills : List UserFill)
    (is_builder_fill : UserFill → Bool) : TaintAnalysisResult :=
  (processFills PositionLifecycleTracker.new (sortFillsByTime fills)
    is_builder_fill).result

/-! ## PnL aggregation (src/crates/hl-types/src/pnl.rs) -/

/-- PnL summary for a single asset, mirroring `AssetPnL`. -/
structure AssetPnL where
  asset : Asset
  realized_pnl : Rat
  fees : Rat
  net_pnl : Rat
  fill_count : Nat
  volume : Rat
  first_fill_ms : Option Nat
  last_fill_ms : Option Nat
deriving DecidableEq, Repr

/-- Source `AssetPnL::new`. -/
def AssetPnL.new (asset : Asset) : AssetPnL where
  asset := asset
  realized_pnl := 0
  fees := 0
  net_pnl := 0
  fill_count := 0
  volume := 0
  first_fill_ms := none
  last_fill_ms := none

/-- The per-asset fill store `HashMap<Asset, Vec<UserFill>>`, modelled as an
association list; a real `HashMap` never holds a key twice, which theorems
carry as a `Nodup` hypothesis where it matters. -/
abbrev FillsByAsset := List (Asset × List UserFill)

/-- First-match association lookup, modelling `HashMap::get`. -/
def lookupFills : FillsByAsset → Asset → Option (List UserFill)
  | [], _ => none
  | (a, fs) :: rest, key => if a = key then some fs else lookupFills rest key

/-- Source `entry(asset).or_default().push(fill)`: append to the asset's list if the
key is present, otherwise add a fresh singleton entry. -/
def pushFill : FillsByAsset → UserFill → FillsByAsset
  | [], f => [(f.asset, [f])]
  | (a, fs) :: rest, f =>
    if a = f.asset then (a, fs ++ [f]) :: rest
    else (a, fs) :: pushFill rest f

/-- Every fill held in a per-asset store, in entry order. -/
def storeFills (m : FillsByAsset) : List UserFill :=
  (m.map Prod.snd).flatten

/-- Comprehensive PnL tracker for a user, mirroring `UserPnL`. -/
structure UserPnL where
  user : String
  fills_by_asset : FillsByAsset
  total_fill_count : Nat

/-- Source `UserPnL::new`. -/
def UserPnL.new (user : String) : UserPnL where
  user := user
  fills_by_asset := []
  total_fill_count := 0

/-- Source `UserPnL::add_fill`. -/
def UserPnL.add_fill (p : UserPnL) (fill : UserFill) : UserPnL where
  user := p.user
  fills_by_asset := pushFill p.fills_by_asset fill
  total_fill_count := p.total_fill_count + 1

/-- Summary of PnL calculation results, mirroring `PnLSummary`; the
`by_asset` HashMap is an association list updated with replace-on-insert. -/
structure PnLSummary where
  realized_pnl : Rat
  total_fees : Rat
  net_pnl : Rat
  fill_count : Nat
  total_volume : Rat
  by_asset : List (Asset × AssetPnL)
deriving DecidableEq, Repr

/-- Source `HashMap::insert` on the `by_asset` map: replace the value when the key
is present, otherwise add the entry. -/
def insertAssetPnL : List (Asset × AssetPnL) → Asset → AssetPnL →
    List (Asset × AssetPnL)
  | [], a, v => [(a, v)]
  | (k, w) :: rest, a, v =>
    if k = a then (k, v) :: rest else (k, w) :: insertAssetPnL rest a v

/-- The per-fill accumulation of `calculate_asset_pnl`'s loop body. -/
def assetPnlStep (pnl : AssetPnL) (fill : UserFill) : AssetPnL :=
  { pnl with
    realized_pnl := pnl.realized_pnl + fill.closed_pnl
    fees := pnl.fees + fill.fee
    fill_count := pnl.fill_count + 1
    volume := pnl.volume + fill.notional_value
    first_fill_ms := match pnl.first_fill_ms with
      | none => some fill.timestamp_ms
      | some first =>
        if fill.timestamp_ms < first then some fill.timestamp_ms
        else some first
    last_fill_ms := match pnl.last_fill_ms with
      | none => some fill.timestamp_ms
      | some last =>
        if last < fill.timestamp_ms then some fill.timestamp_ms
        else some last }

/-- Source `UserPnL::calculate_asset_pnl`: fold one asset's fills into an
`AssetPnL`, then set `net_pnl`. -/
def calculate_asset_pnl (asset : Asset) (fills : List UserFill) : AssetPnL :=
  let pnl := fills.foldl assetPnlStep (AssetPnL.new asset)
  { pnl with net_pnl := pnl.realized_pnl - pnl.fees }

/-- The empty summary `calculate_pnl` starts from. -/
def PnLSummary.empty : PnLSummary where
  realized_pnl := 0
  total_fees := 0
  net_pnl := 0
  fill_count := 0
  total_volume := 0
  by_asset := []

/-- The summary update of `calculate_pnl`'s loop body for one asset with its
fills. -/
def calcEntryStep (s : PnLSummary) (e : Asset × List UserFill) : PnLSummary :=
  let asset_pnl := calculate_asset_pnl e.1 e.2
  { s with
    realized_pnl := s.realized_pnl + asset_pnl.realized_pnl
    total_fees := s.total_fees + asset_pnl.fees
    fill_count := s.fill_count + asset_pnl.fill_count
    total_volume := s.total_volume + asset_pnl.volume
    by_asset := insertAssetPnL s.by_asset e.1 asset_pnl }

/-- One step of the `for asset in assets_to_process` loop of
`calculate_pnl`: add the asset's aggregate when the asset has fills. -/
def calcStep (m : FillsByAsset) (s : PnLSummary) (asset : Asset) : PnLSummary :=
  match lookupFills m asset with
  | some fills => calcEntryStep s (asset, fills)
  | none => s

/-- Source `UserPnL::calculate_pnl`: aggregate over the requested assets (all stored
assets when the filter is `none`), then set `net_pnl`. -/
def UserPnL.calculate_pnl (p : UserPnL) (assets : Option (List Asset)) :
    PnLSummary :=
  let assets_to_process : List Asset :=
    match assets with
    | some filter => filter
    | none => p.fills_by_asset.map Prod.fst
  let summary := assets_to_process.foldl (calcStep p.fills_by_asset)
    PnLSummary.empty
  { summary with net_pnl := summary.realized_pnl - summary.total_fees }

/-- The per-fill body of `calculate_pnl_in_range`'s inner loop: keep the
fill when `from_ms <= timestamp_ms <= to_ms`. -/
def rangeAddStep (from_ms to_ms : Nat) (filtered : UserPnL)
    (fill : UserFill) : UserPnL :=
  if from_ms ≤ fill.timestamp_ms ∧ fill.timestamp_ms ≤ to_ms then
    filtered.add_fill fill
  else filtered

/-- The per-asset body of `calculate_pnl_in_range`'s outer loop. -/
def rangeAssetStep (m : FillsByAsset) (from_ms to_ms : Nat)
    (filtered : UserPnL) (asset : Asset) : UserPnL :=
  match lookupFills m asset with
  | some fills => fills.foldl (rangeAddStep from_ms to_ms) filtered
  | none => filtered

/-- Source `UserPnL::calculate_pnl_in_range`: build a filtered store containing the
fills with `from_ms <= timestamp_ms <= to_ms` and aggregate it. -/
def UserPnL.calculate_pnl_in_range (p : UserPnL) (from_ms to_ms : Nat)
    (assets : Option (List Asset)) : PnLSummary :=
  let assets_to_check : List Asset :=
    match assets with
    | some filter => filter
    | none => p.fills_by_asset.map Prod.fst
  let filtered := assets_to_check.foldl
    (rangeAssetStep p.fills_by_asset from_ms to_ms) (UserPnL.new p.user)
  filtered.calculate_pnl none

/-! ## Leaderboard stats (src/crates/hl-indexer/src/leaderboard.rs) -/

/-- User statistics for leaderboard ranking, mirroring `UserStats`. -/
structure UserStats where
  user : String
  volume : Rat
  realized_pnl : Rat
  return_pct : Option Rat
  trade_count : Nat
  builder_fill_count : Nat
  taint_result : TaintAnalysisResult
deriving DecidableEq, Repr

/-- Accumulator of the fill loop inside `calculate_user_stats`
(`volume`, `realized_pnl`, `builder_fill_count`, `counted_fills`). -/
structure StatsAcc where
  volume : Rat
  realized_pnl : Rat
  builder_fill_count : Nat
  counted_fills : Nat
deriving DecidableEq, Repr

/-- One iteration of the fill loop of `calculate_user_stats`: count builder
fills, and add volume / pnl / trade count unless `builder_only` excludes a
non-builder fill. -/
def statsStep (user : String) (builder_checker : UserFill → String → Bool)
    (builder_only : Bool) (acc : StatsAcc) (fill : UserFill) : StatsAcc :=
  let is_builder := builder_checker fill user
  let acc :=
    if is_builder then
      { acc with builder_fill_count := acc.builder_fill_count + 1 }
    else acc
  if !builder_only || is_builder then
    { acc with
      volume := acc.volume + fill.price * fill.size
      realized_pnl := acc.realized_pnl + (fill.closed_pnl - fill.fee)
      counted_fills := acc.counted_fills + 1 }
  else acc

/-- Source `calculate_user_stats`: coin filter, metric accumulation (honouring
`builder_only`), taint analysis over the coin-filtered fills, and return
percentage from `max_start_capital`. The `BuilderFillChecker` trait object is
modelled by its single method as a function. -/
def calculate_user_stats (user : String) (fills : List UserFill)
    (builder_checker : UserFill → String → Bool)
    (max_start_capital : Option Rat) (coin_filter : Option String)
    (builder_only : Bool) : UserStats :=
  let fills :=
    match coin_filter with
    | some coin =>
      let target_asset := Asset.fromSymbol coin
      fills.filter (fun f => f.asset = target_asset)
    | none => fills
  let acc := fills.foldl (statsStep user builder_checker builder_only)
    ⟨0, 0, 0, 0⟩
  let taint_result := analyze_user_taint fills
    (fun fill => builder_checker fill user)
  let return_pct := max_start_capital.map (fun capital =>
    if 0 < capital then acc.realized_pnl / capital * 100 else 0)
  { user := user
    volume := acc.volume
    realized_pnl := acc.realized_pnl
    return_pct := return_pct
    trade_count := acc.counted_fills
    builder_fill_count := acc.builder_fill_count
    taint_result := taint_result }

/-! ## Builder-fill enricher (src/crates/hl-builder-data/src/enricher.rs and
src/crates/hl-builder-data/src/types.rs) -/

/-- Order side for builder fills (`BuilderFillSide`). -/
inductive BuilderFillSide where
  | Bid
  | Ask
deriving DecidableEq, Repr

/-- Source `BuilderFillSide::is_buy`. -/
def BuilderFillSide.is_buy : BuilderFillSide → Bool
  | BuilderFillSide.Bid => true
  | BuilderFillSide.Ask => false

/-- A fill attributed to a builder, mirroring `BuilderFill`. The
`DateTime<Utc>` timestamp is modelled by its Unix-epoch whole seconds
(`time.timestamp()`), the only view the enricher reads. -/
structure BuilderFill where
  time_sec : Int
  user : String
  asset : Asset
  side : BuilderFillSide
  price : Rat
  size : Rat
  crossed : Bool
  special_trade_type : String
  time_in_force : String
  is_trigger : Bool
  counterparty : String
  closed_pnl : Rat
  twap_id : Nat
  builder_fee : Rat
deriving DecidableEq, Repr

/-- Composite key for matching fills across the two sources, mirroring
`FillKey`. The source compares `Decimal::to_string` renderings of size and
price; with both sides carrying the same scale (as in the claims under test)
that string comparison coincides with exact value equality, so the key holds
the `Rat` values. -/
structure FillKey where
  user : String
  coin : String
  time_sec : Int
  size : Rat
  price : Rat
  is_buy : Bool
deriving DecidableEq, Repr

/-- Source `FillKey::from_builder_fill`. -/
def FillKey.from_builder_fill (fill : BuilderFill) : FillKey where
  user := strToLower fill.user
  coin := strToUpper fill.asset.symbol
  time_sec := fill.time_sec
  size := fill.size
  price := fill.price
  is_buy := fill.side.is_buy

/-- Source `FillKey::from_user_fill` (millisecond timestamp truncated to whole
seconds). -/
def FillKey.from_user_fill (fill : UserFill) (user : String) : FillKey where
  user := strToLower user
  coin := strToUpper fill.asset.symbol
  time_sec := (fill.timestamp_ms / 1000 : Nat)
  size := fill.size
  price := fill.price
  is_buy := match fill.side with
    | Side.Buy => true
    | Side.Sell => false

/-- Source `HashMap::insert` for the enricher index (replace on duplicate key). -/
def insertByKey : List (FillKey × BuilderFill) → FillKey → BuilderFill →
    List (FillKey × BuilderFill)
  | [], k, v => [(k, v)]
  | (k', v') :: rest, k, v =>
    if k' = k then (k', v) :: rest else (k', v') :: insertByKey rest k v

/-- First-match lookup in the enricher index. -/
def lookupByKey : List (FillKey × BuilderFill) → FillKey → Option BuilderFill
  | [], _ => none
  | (k', v) :: rest, k => if k' = k then some v else lookupByKey rest k

/-- Builder-fill index, mirroring `FillEnricher`. -/
structure FillEnricher where
  fills_by_key : List (FillKey × BuilderFill)
  total_fills : Nat

/-- Source `FillEnricher::new`: index every builder fill under its composite key. -/
def FillEnricher.new (fills : List BuilderFill) : FillEnricher where
  fills_by_key := fills.foldl
    (fun m fill => insertByKey m (FillKey.from_builder_fill fill) fill) []
  total_fills := fills.length

/-- Source `FillEnricher::get_builder_fill`. -/
def FillEnricher.get_builder_fill (e : FillEnricher) (fill : UserFill)
    (user : String) : Option BuilderFill :=
  lookupByKey e.fills_by_key (FillKey.from_user_fill fill user)

/-- Source `FillEnricher::is_builder_fill`. -/
def FillEnricher.is_builder_fill (e : FillEnricher) (fill : UserFill)
    (user : String) : Bool :=
  (e.get_builder_fill fill user).isSome

/-- Source `FillEnricher::get_builder_fee`. -/
def FillEnricher.get_builder_fee (e : FillEnricher) (fill : UserFill)
    (user : String) : Option Rat :=
  (e.get_builder_fill fill user).map BuilderFill.builder_fee

/-! ## Paginated fetcher (src/crates/hl-ingestion/src/api_client.rs)

`ApiClient::user_fills_by_time` loops over HTTP responses. The endpoint is
modelled as the sequence of pages it hands back, one per iteration of the
loop; the loop consumes the next page where the source issues the next POST,
and an exhausted sequence is an empty response. The `current_end_time`
cursor only influences which page the real endpoint serves next, which the
quantification over page sequences already covers, so it is carried verbatim
but never read back into the result. -/

/-- The slice of `hypersdk::hypercore::types::Fill` the pagination logic
reads: millisecond timestamp `time` and trade id `tid`. -/
structure HFill where
  time : Nat
  tid : Nat
deriving DecidableEq, Repr

/-- Source `MAX_FILLS_PER_REQUEST`: maximum fills per API request. -/
def MAX_FILLS_PER_REQUEST : Nat := 2000

/-- Source `MAX_TOTAL_FILLS`: maximum total fills fetched (API limit). -/
def MAX_TOTAL_FILLS : Nat := 10000

/-- The dedup step of one page: `if seen_tids.insert(fill.tid) { push }`.
The `HashSet` is modelled by the list of seen tids. -/
def dedupStep (p : List HFill × List Nat) (fill : HFill) :
    List HFill × List Nat :=
  if fill.tid ∈ p.2 then p else (p.1 ++ [fill], fill.tid :: p.2)

/-- Source `fills.iter().map(|f| f.time).min().unwrap_or(0)`. -/
def earliestTime (fills : List HFill) : Nat :=
  match fills.map HFill.time with
  | [] => 0
  | t :: ts => ts.foldl min t

/-- Stable insertion into a list sorted descending by `time` (equal keys keep
their relative order). -/
def insertDescByTime (f : HFill) : List HFill → List HFill
  | [] => [f]
  | g :: rest =>
    if f.time ≤ g.time then g :: insertDescByTime f rest
    else f :: g :: rest

/-- Source `all_fills.sort_by(|a, b| b.time.cmp(&a.time))`: stable sort by time
descending. -/
def sortDescByTime : List HFill → List HFill
  | [] => []
  | f :: rest => insertDescByTime f (sortDescByTime rest)

/-- The pagination loop of `user_fills_by_time`, prior to the final sort.
State: accumulated fills, seen trade ids, and the end-time cursor. -/
def userFillsByTimeGo (start_time : Nat) :
    List (List HFill) → List HFill → List Nat → Option Int → List HFill
  | [], all_fills, _, _ => all_fills
  | page :: rest, all_fills, seen_tids, _ =>
    if page.isEmpty then all_fills
    else
      let response_len := page.length
      let st := page.foldl dedupStep (all_fills, seen_tids)
      let all_fills := st.1
      let seen_tids := st.2
      if response_len < MAX_FILLS_PER_REQUEST then all_fills
      else if MAX_TOTAL_FILLS ≤ all_fills.length then all_fills
      else
        let earliest_time := earliestTime all_fills
        if earliest_time ≤ start_time then all_fills
        else
          userFillsByTimeGo start_time rest all_fills seen_tids
            (some ((earliest_time : Int) - 1))

/-- Source `ApiClient::user_fills_by_time` as a function of the page sequence the
endpoint returns: paginate with dedup, then sort by time descending. -/
def user_fills_by_time (start_time : Nat) (end_time : Option Int)
    (pages : List (List HFill)) : List HFill :=
  sortDescByTime (userFillsByTimeGo start_time pages [] [] end_time)

/-! ## Concrete scenario inputs used by the claims -/

/-- Scenario S3, first fill: Buy 1 BTC at t=1000 with trade id 1. -/
def s3Fill1 : UserFill :=
  ⟨Asset.Btc, 1000, 100, 1, Side.Buy, (1:Rat)/10, 0, 1, 1, true, "Test"⟩

/-- Scenario S3, second fill: Sell 1 BTC at t=2000 with trade id 2. -/
def s3Fill2 : UserFill :=
  ⟨Asset.Btc, 2000, 100, 1, Side.Sell, (1:Rat)/10, 0, 2, 2, true, "Test"⟩

/-- Scenario S7 builder fill: user 0xabc, SOL, t=5000 s, price 135.88,
size 0.23, Bid, builder fee 0.003125. -/
def s7BuilderFill : BuilderFill :=
  ⟨5000, "0xabc", Asset.Sol, BuilderFillSide.Bid, (13588:Rat)/100,
   (23:Rat)/100, false, "Na", "Gtc", false, "0x0", 0, 0, (3125:Rat)/1000000⟩

/-- Scenario S7 user fill: SOL, t=5 000 000 ms, price 135.88, size 0.23,
Buy. -/
def s7UserFill : UserFill :=
  ⟨Asset.Sol, 5000000, (13588:Rat)/100, (23:Rat)/100, Side.Buy, (1:Rat)/10,
   0, 12345, 67890, false, "Open Long"⟩

/-- Scenario S7 user fill with the price changed to 135.89. -/
def s7UserFillOffPrice : UserFill :=
  ⟨Asset.Sol, 5000000, (13589:Rat)/100, (23:Rat)/100, Side.Buy, (1:Rat)/10,
   0, 12345, 67890, false, "Open Long"⟩

/-- A BTC fill carrying only a `closed_pnl` and a timestamp, as in the
scenarios S1 and S2. -/
def pnlFill (cp : Rat) (t : Nat) : UserFill :=
  ⟨Asset.Btc, t, 100, 1, Side.Buy, 1, cp, t, t, true, "Open Long"⟩

/-- Scenario S2 store: three BTC fills at t of 1000, 2000 and 3000 carrying
closed_pnl of 100, 50 and 25. -/
def s2Store : UserPnL :=
  (((UserPnL.new "0x123").add_fill (pnlFill 100 1000)).add_fill
    (pnlFill 50 2000)).add_fill (pnlFill 25 3000)

/-- A losing non-builder fill: closed_pnl is -10 with no fee, so its net pnl
contribution is negative. -/
def losingFill : UserFill :=
  ⟨Asset.Btc, 1000, 1, 1, Side.Buy, 0, -10, 7, 7, true, "Close Long"⟩

/-! ## Sorting permutation lemmas -/

theorem insertByTime_perm (f : UserFill) (l : List UserFill) :
    List.Perm (insertByTime f l) (f :: l) := by
  induction l with
  | nil => simp [insertByTime]
  | cons g rest ih =>
    rw [insertByTime]
    by_cases h : g.timestamp_ms ≤ f.timestamp_ms
    · rw [if_pos h]
      exact (ih.cons g).trans (List.Perm.swap f g rest)
    · rw [if_neg h]

theorem sortFillsByTime_perm (l : List UserFill) :
    List.Perm (sortFillsByTime l) l := by
  induction l with
  | nil => simp [sortFillsByTime]
  | cons f rest ih =>
    rw [sortFillsByTime]
    exact (insertByTime_perm f (sortFillsByTime rest)).trans (ih.cons f)

theorem insertDescByTime_perm (f : HFill) (l : List HFill) :
    List.Perm (insertDescByTime f l) (f :: l) := by
  induction l with
  | nil => simp [insertDescByTime]
  | cons g rest ih =>
    rw [insertDescByTime]
    by_cases h : f.time ≤ g.time
    · rw [if_pos h]
      exact (ih.cons g).trans (List.Perm.swap f g rest)
    · rw [if_neg h]

theorem sortDescByTime_perm (l : List HFill) :
    List.Perm (sortDescByTime l) l := by
  induction l with
  | nil => simp [sortDescByTime]
  | cons f rest ih =>
    rw [sortDescByTime]
    exact (insertDescByTime_perm f (sortDescByTime rest)).trans (ih.cons f)

/-! ## Claim C3 -/

/-- C3: on the two-fill list [Buy 1 BTC at t=1000 id 1, Sell 1 BTC at t=2000
id 2] with a checker marking only trade id 1 as a builder fill,
`analyze_user_taint` reports tainted = true, builder_fills = 1,
tainted_fills = 1, and first taint at t=2000: a position opened via the
builder and closed elsewhere taints the user at the closing fill. -/
theorem C3_builder_open_nonbuilder_close_taints :
    (analyze_user_taint [s3Fill1, s3Fill2] (fun f => f.trade_id == 1)).tainted
        = true ∧
    (analyze_user_taint [s3Fill1, s3Fill2]
        (fun f => f.trade_id == 1)).builder_fills = 1 ∧
    (analyze_user_taint [s3Fill1, s3Fill2]
        (fun f => f.trade_id == 1)).tainted_fills = 1 ∧
    (analyze_user_taint [s3Fill1, s3Fill2]
        (fun f => f.trade_id == 1)).first_taint_timestamp_ms = some 2000 := by
  norm_num [analyze_user_taint, processFills, sortFillsByTime, insertByTime,
    PositionLifecycleTracker.process_fill, PositionLifecycleTracker.new,
    PositionLifecycleTracker.result, PositionLifecycleTracker.is_tainted,
    insertKey, s3Fill1, s3Fill2]

/-! ## Claim C5 -/

/-- C5: the enricher built from the single S7 builder fill matches the user
fill with the same composite key under user "0xABC" (case-insensitive user,
second-resolution time) and reports builder fee 0.003125, while the same
fill with price changed from 135.88 to 135.89 does not match. -/
theorem C5_enricher_composite_match :
    (FillEnricher.new [s7BuilderFill]).is_builder_fill s7UserFill "0xABC"
        = true ∧
    (FillEnricher.new [s7BuilderFill]).get_builder_fee s7UserFill "0xABC"
        = some ((3125:Rat)/1000000) ∧
    (FillEnricher.new [s7BuilderFill]).is_builder_fill s7UserFillOffPrice
        "0xABC" = false := by
  simp +decide [FillEnricher.new, FillEnricher.is_builder_fill,
    FillEnricher.get_builder_fill, FillEnricher.get_builder_fee,
    FillKey.from_builder_fill, FillKey.from_user_fill, insertByKey,
    lookupByKey, strToLower, strToUpper, charToLower, charToUpper,
    Asset.symbol, BuilderFillSide.is_buy, s7BuilderFill, s7UserFill,
    s7UserFillOffPrice, FillKey.mk.injEq]
  norm_num

/-! ## Claim C9 -/

/-- C9: `calculate_user_stats` returns `return_pct = none` when no start
capital is configured, `some (realized_pnl / capital * 100)` when the
configured capital is strictly positive, and `some 0` when the configured
capital is not strictly positive. -/
theorem C9_return_pct_cases (user : String) (fills : List UserFill)
    (builder_checker : UserFill → String → Bool) (coin_filter : Option String)
    (builder_only : Bool) :
    ((calculate_user_stats user fills builder_checker none coin_filter
        builder_only).return_pct = none) ∧
    (∀ cap : Rat, 0 < cap →
      (calculate_user_stats user fills builder_checker (some cap) coin_filter
          builder_only).return_pct
        = some ((calculate_user_stats user fills builder_checker (some cap)
            coin_filter builder_only).realized_pnl / cap * 100)) ∧
    (∀ cap : Rat, cap ≤ 0 →
      (calculate_user_stats user fills builder_checker (some cap) coin_filter
          builder_only).return_pct = some 0) := by
  refine ⟨?_, ?_, ?_⟩
  · simp [calculate_user_stats]
  · intro cap hcap
    simp [calculate_user_stats, if_pos hcap]
  · intro cap hcap
    simp [calculate_user_stats, if_neg (not_lt.mpr hcap)]

/-- Witness for C9 at concrete inputs: capital 3 is strictly positive, and
the three cases evaluate as stated. -/
theorem C9_return_pct_cases_witness :
    (0:Rat) < 3 ∧
    ((calculate_user_stats "0xu" [losingFill] (fun _ _ => false) (some 3)
        none false).return_pct
      = some ((calculate_user_stats "0xu" [losingFill] (fun _ _ => false)
          (some 3) none false).realized_pnl / 3 * 100)) :=
  ⟨by norm_num,
   (C9_return_pct_cases "0xu" [losingFill] (fun _ _ => false) none
      false).2.1 3 (by norm_num)⟩

/-! ## Claim C7 -/

theorem processFills_all_builder (checker : UserFill → Bool)
    (l : List UserFill) :
    ∀ t : PositionLifecycleTracker, (∀ f ∈ l, checker f = true) →
      (processFills t l checker).tainted_assets = t.tainted_assets ∧
      (processFills t l checker).tainted_fills = t.tainted_fills ∧
      (processFills t l checker).builder_fills
        = t.builder_fills + l.length := by
  induction l with
  | nil => intro t _; simp [processFills]
  | cons f rest ih =>
    intro t h
    have hf : checker f = true := h f (List.mem_cons_self f rest)
    have ih' := ih ((t.process_fill f (checker f)).1)
      (fun g hg => h g (List.mem_cons_of_mem f hg))
    simp only [processFills, List.foldl_cons] at ih' ⊢
    have hstep : ((t.process_fill f (checker f)).1).tainted_assets
          = t.tainted_assets ∧
        ((t.process_fill f (checker f)).1).tainted_fills = t.tainted_fills ∧
        ((t.process_fill f (checker f)).1).builder_fills
          = t.builder_fills + 1 := by
      rw [hf]
      simp [PositionLifecycleTracker.process_fill]
    refine ⟨?_, ?_, ?_⟩
    · rw [ih'.1, hstep.1]
    · rw [ih'.2.1, hstep.2.1]
    · rw [ih'.2.2, hstep.2.2, List.length_cons]
      omega

/-- C7: when the checker marks every fill as a builder fill,
`analyze_user_taint` reports the user untainted, with zero tainted fills and
a builder-fill count equal to the number of fills. -/
theorem C7_all_builder_not_tainted (fills : List UserFill)
    (checker : UserFill → Bool) (h : ∀ f ∈ fills, checker f = true) :
    (analyze_user_taint fills checker).tainted = false ∧
    (analyze_user_taint fills checker).tainted_fills = 0 ∧
    (analyze_user_taint fills checker).builder_fills = fills.length := by
  have hperm := sortFillsByTime_perm fills
  have hmain := processFills_all_builder checker (sortFillsByTime fills)
    PositionLifecycleTracker.new (fun f hf => h f (hperm.mem_iff.mp hf))
  simp only [analyze_user_taint, PositionLifecycleTracker.result,
    PositionLifecycleTracker.is_tainted]
  refine ⟨?_, ?_, ?_⟩
  · rw [hmain.1]; rfl
  · rw [hmain.2.1]; rfl
  · rw [hmain.2.2, hperm.length_eq]
    simp [PositionLifecycleTracker.new]

/-- Witness for C7: the all-true checker on a one-fill list satisfies the
hypothesis, and the analysis reports untainted with one builder fill. -/
theorem C7_all_builder_not_tainted_witness :
    (∀ f ∈ [s3Fill1], (fun _ : UserFill => true) f = true) ∧
    ((analyze_user_taint [s3Fill1] (fun _ => true)).tainted = false ∧
     (analyze_user_taint [s3Fill1] (fun _ => true)).tainted_fills = 0 ∧
     (analyze_user_taint [s3Fill1] (fun _ => true)).builder_fills
       = [s3Fill1].length) :=
  ⟨by simp, C7_all_builder_not_tainted [s3Fill1] (fun _ => true) (by simp)⟩

/-! ## Claim C10 -/

theorem signed_size_match (f : UserFill) :
    (match f.side with | Side.Buy => f.size | Side.Sell => -f.size)
      = f.signed_size := by
  cases hs : f.side <;> simp [UserFill.signed_size, Side.sign, hs]

theorem process_fill_positions (t : PositionLifecycleTracker) (f : UserFill)
    (b : Bool) (a : Asset) :
    ((t.process_fill f b).1).positions a
      = if a = f.asset then t.positions f.asset + f.signed_size
        else t.positions a := by
  rw [← signed_size_match f]
  unfold PositionLifecycleTracker.process_fill
  cases b
  · by_cases hc : t.positions f.asset ≠ 0 ∨
        t.positions f.asset
          + (match f.side with | Side.Buy => f.size | Side.Sell => -f.size)
          ≠ 0
    · simp only [Bool.false_eq_true, if_false, if_pos hc]
    · simp only [Bool.false_eq_true, if_false, if_neg hc]
  · simp

/-- Positions accumulate the signed sizes of the fills seen so far, for any
starting tracker and any builder-classification flags. -/
theorem processSeq_positions (l : List (UserFill × Bool)) :
    ∀ (t : PositionLifecycleTracker) (a : Asset),
      (processSeq t l).positions a
        = t.positions a
          + (((l.map Prod.fst).filter (fun f => f.asset = a)).map
              UserFill.signed_size).sum := by
  induction l with
  | nil => intro t a; simp [processSeq]
  | cons p rest ih =>
    intro t a
    have ih' := ih ((t.process_fill p.1 p.2).1) a
    simp only [processSeq, List.foldl_cons] at ih' ⊢
    rw [ih', process_fill_positions]
    by_cases h : p.1.asset = a
    · subst h
      simp [List.filter_cons]
      ring
    · simp [List.filter_cons, h, Ne.symm h]

/-- C10: throughout taint analysis the tracker's recorded position for every
asset equals the sum of the signed sizes of the fills for that asset
processed so far, for every fill sequence and every assignment of
builder-classification flags: builder status never feeds the position
state. -/
theorem C10_position_is_signed_sum (l : List (UserFill × Bool)) (a : Asset) :
    (processSeq PositionLifecycleTracker.new l).get_position a
      = (((l.map Prod.fst).filter (fun f => f.asset = a)).map
          UserFill.signed_size).sum := by
  rw [PositionLifecycleTracker.get_position, processSeq_positions]
  simp [PositionLifecycleTracker.new]

/-! ## Claim C2 -/

theorem statsFold_volume_le (user : String)
    (checker : UserFill → String → Bool) (l : List UserFill) :
    ∀ a1 a2 : StatsAcc,
      a1.volume ≤ a2.volume →
      (∀ f ∈ l, 0 ≤ f.price * f.size) →
      (l.foldl (statsStep user checker true) a1).volume
          ≤ (l.foldl (statsStep user checker false) a2).volume := by
  induction l with
  | nil => intro a1 a2 hv _; exact hv
  | cons f rest ih =>
    intro a1 a2 hv hvol
    simp only [List.foldl_cons]
    apply ih
    · cases hb : checker f user
      · simp only [statsStep, hb, Bool.false_eq_true, if_false,
          Bool.not_true, Bool.false_or]
        exact hv.trans
          (le_add_of_nonneg_right (hvol f (List.mem_cons_self f rest)))
      · simp only [statsStep, hb, if_true, Bool.not_true, Bool.false_or,
          Bool.not_false, Bool.true_or]
        exact add_le_add_right hv _
    · exact fun g hg => hvol g (List.mem_cons_of_mem f hg)

theorem statsFold_pnl_le (user : String)
    (checker : UserFill → String → Bool) (l : List UserFill) :
    ∀ a1 a2 : StatsAcc,
      a1.realized_pnl ≤ a2.realized_pnl →
      (∀ f ∈ l, checker f user = false → 0 ≤ f.closed_pnl - f.fee) →
      (l.foldl (statsStep user checker true) a1).realized_pnl
          ≤ (l.foldl (statsStep user checker false) a2).realized_pnl := by
  induction l with
  | nil => intro a1 a2 hr _; exact hr
  | cons f rest ih =>
    intro a1 a2 hr hpnl
    simp only [List.foldl_cons]
    apply ih
    · cases hb : checker f user
      · simp only [statsStep, hb, Bool.false_eq_true, if_false,
          Bool.not_true, Bool.false_or]
        exact hr.trans (le_add_of_nonneg_right
          (hpnl f (List.mem_cons_self f rest) hb))
      · simp only [statsStep, hb, if_true, Bool.not_true, Bool.false_or,
          Bool.not_false, Bool.true_or]
        exact add_le_add_right hr _
    · exact fun g hg => hpnl g (List.mem_cons_of_mem f hg)

/-- C2 (amended): turning on `builder_only` never increases `volume`
provided every fill has nonnegative notional (price times size), and never
increases `realized_pnl` provided additionally every non-builder fill has
nonnegative net pnl (closed_pnl minus fee). The volume bound rests on the
notional hypothesis alone; the net-pnl condition is assumed only for the
realized_pnl bound. -/
theorem C2_builder_only_monotone_amended (user : String)
    (fills : List UserFill) (builder_checker : UserFill → String → Bool)
    (max_start_capital : Option Rat) (coin_filter : Option String)
    (hvol : ∀ f ∈ fills, 0 ≤ f.price * f.size) :
    ((calculate_user_stats user fills builder_checker max_start_capital
        coin_filter true).volume
      ≤ (calculate_user_stats user fills builder_checker max_start_capital
          coin_filter false).volume) ∧
    ((∀ f ∈ fills, builder_checker f user = false →
        0 ≤ f.closed_pnl - f.fee) →
      (calculate_user_stats user fills builder_checker max_start_capital
          coin_filter true).realized_pnl
        ≤ (calculate_user_stats user fills builder_checker max_start_capital
            coin_filter false).realized_pnl) := by
  constructor
  · cases coin_filter with
    | none =>
      simp only [calculate_user_stats]
      exact statsFold_volume_le user builder_checker fills
        ⟨0, 0, 0, 0⟩ ⟨0, 0, 0, 0⟩ le_rfl hvol
    | some coin =>
      simp only [calculate_user_stats]
      exact statsFold_volume_le user builder_checker _
        ⟨0, 0, 0, 0⟩ ⟨0, 0, 0, 0⟩ le_rfl
        (fun f hf => hvol f (List.mem_of_mem_filter hf))
  · intro hpnl
    cases coin_filter with
    | none =>
      simp only [calculate_user_stats]
      exact statsFold_pnl_le user builder_checker fills
        ⟨0, 0, 0, 0⟩ ⟨0, 0, 0, 0⟩ le_rfl hpnl
    | some coin =>
      simp only [calculate_user_stats]
      exact statsFold_pnl_le user builder_checker _
        ⟨0, 0, 0, 0⟩ ⟨0, 0, 0, 0⟩ le_rfl
        (fun f hf => hpnl f (List.mem_of_mem_filter hf))

/-- Witness for C2 (amended): a single winning fill satisfies the notional
hypothesis (and the net-pnl condition of the inner implication), and both
metrics are no larger in builder-only mode. -/
theorem C2_builder_only_monotone_amended_witness :
    (∀ f ∈ [pnlFill 100 1000], 0 ≤ f.price * f.size) ∧
    (∀ f ∈ [pnlFill 100 1000], (fun _ _ => false) f "0xu" = false →
      0 ≤ f.closed_pnl - f.fee) ∧
    ((calculate_user_stats "0xu" [pnlFill 100 1000] (fun _ _ => false) none
        none true).volume
      ≤ (calculate_user_stats "0xu" [pnlFill 100 1000] (fun _ _ => false)
          none none false).volume ∧
    (calculate_user_stats "0xu" [pnlFill 100 1000] (fun _ _ => false) none
        none true).realized_pnl
      ≤ (calculate_user_stats "0xu" [pnlFill 100 1000] (fun _ _ => false)
          none none false).realized_pnl) :=
  ⟨by intro f hf; simp at hf; norm_num [hf, pnlFill],
   by intro f hf _; simp at hf; norm_num [hf, pnlFill],
   (C2_builder_only_monotone_amended "0xu" [pnlFill 100 1000]
     (fun _ _ => false) none none
     (by intro f hf; simp at hf; norm_num [hf, pnlFill])).1,
   (C2_builder_only_monotone_amended "0xu" [pnlFill 100 1000]
     (fun _ _ => false) none none
     (by intro f hf; simp at hf; norm_num [hf, pnlFill])).2
     (by intro f hf _; simp at hf; norm_num [hf, pnlFill])⟩

/-- C2 counterexample: with a single losing non-builder fill (closed_pnl of
-10, no fee), `builder_only = true` excludes the loss, so its
`realized_pnl` (0) is strictly greater than with `builder_only = false`
(-10): turning on `builder_only` increased `realized_pnl`. -/
theorem C2_realized_pnl_not_monotone :
    ¬ ((calculate_user_stats "0xu" [losingFill] (fun _ _ => false) none none
          true).realized_pnl
        ≤ (calculate_user_stats "0xu" [losingFill] (fun _ _ => false) none
            none false).realized_pnl) := by
  norm_num [calculate_user_stats, statsStep, analyze_user_taint,
    processFills, sortFillsByTime, insertByTime,
    PositionLifecycleTracker.process_fill, PositionLifecycleTracker.new,
    PositionLifecycleTracker.result, PositionLifecycleTracker.is_tainted,
    insertKey, losingFill]

/-! ## Claims C4 and C1: pagination -/

theorem dedupFold_inv (page : List HFill) :
    ∀ acc seen,
      (∀ f ∈ acc, f.tid ∈ seen) → (acc.map HFill.tid).Nodup →
      (∀ f ∈ (page.foldl dedupStep (acc, seen)).1,
        f.tid ∈ (page.foldl dedupStep (acc, seen)).2) ∧
      ((page.foldl dedupStep (acc, seen)).1.map HFill.tid).Nodup ∧
      (∀ f ∈ (page.foldl dedupStep (acc, seen)).1, f ∈ acc ∨ f ∈ page) := by
  induction page with
  | nil =>
    intro acc seen h1 h2
    exact ⟨h1, h2, fun f hf => Or.inl hf⟩
  | cons g page ih =>
    intro acc seen h1 h2
    simp only [List.foldl_cons]
    by_cases hg : g.tid ∈ seen
    · rw [show dedupStep (acc, seen) g = (acc, seen) by
        simp [dedupStep, hg]]
      obtain ⟨i1, i2, i3⟩ := ih acc seen h1 h2
      exact ⟨i1, i2, fun f hf => (i3 f hf).imp id (List.mem_cons_of_mem g)⟩
    · rw [show dedupStep (acc, seen) g = (acc ++ [g], g.tid :: seen) by
        simp [dedupStep, hg]]
      have h1' : ∀ f ∈ acc ++ [g], f.tid ∈ g.tid :: seen := by
        intro f hf
        rcases List.mem_append.mp hf with hf | hf
        · exact List.mem_cons_of_mem _ (h1 f hf)
        · rw [List.mem_singleton.mp hf]
          exact List.mem_cons_self _ _
      have h2' : ((acc ++ [g]).map HFill.tid).Nodup := by
        rw [List.map_append]
        refine List.nodup_append.mpr ⟨h2, List.nodup_singleton _, ?_⟩
        intro x hx hxg
        rw [List.map_singleton] at hxg
        obtain ⟨f, hf, hft⟩ := List.mem_map.mp hx
        apply hg
        rw [← List.mem_singleton.mp hxg, ← hft]
        exact h1 f hf
      obtain ⟨i1, i2, i3⟩ := ih (acc ++ [g]) (g.tid :: seen) h1' h2'
      refine ⟨i1, i2, fun f hf => ?_⟩
      rcases i3 f hf with hf' | hf'
      · rcases List.mem_append.mp hf' with hf'' | hf''
        · exact Or.inl hf''
        · exact Or.inr (List.mem_singleton.mp hf'' ▸ List.mem_cons_self g page)
      · exact Or.inr (List.mem_cons_of_mem g hf')

theorem userFillsByTimeGo_inv (start_time : Nat) (pages : List (List HFill)) :
    ∀ acc seen e,
      (∀ f ∈ acc, f.tid ∈ seen) → (acc.map HFill.tid).Nodup →
      ((userFillsByTimeGo start_time pages acc seen e).map HFill.tid).Nodup ∧
      (∀ f ∈ userFillsByTimeGo start_time pages acc seen e,
        f ∈ acc ∨ ∃ page ∈ pages, f ∈ page) := by
  induction pages with
  | nil =>
    intro acc seen e h1 h2
    rw [userFillsByTimeGo]
    exact ⟨h2, fun f hf => Or.inl hf⟩
  | cons page rest ih =>
    intro acc seen e h1 h2
    rw [userFillsByTimeGo]
    by_cases hp : page.isEmpty
    · rw [if_pos hp]
      exact ⟨h2, fun f hf => Or.inl hf⟩
    · rw [if_neg hp]
      obtain ⟨i1, i2, i3⟩ := dedupFold_inv page acc seen h1 h2
      have hmem : ∀ f ∈ (page.foldl dedupStep (acc, seen)).1,
          f ∈ acc ∨ ∃ p ∈ page :: rest, f ∈ p := by
        intro f hf
        exact (i3 f hf).imp id
          (fun h => ⟨page, List.mem_cons_self page rest, h⟩)
      by_cases hlt : page.length < MAX_FILLS_PER_REQUEST
      · rw [if_pos hlt]
        exact ⟨i2, hmem⟩
      · rw [if_neg hlt]
        by_cases hmax : MAX_TOTAL_FILLS ≤ (page.foldl dedupStep (acc, seen)).1.length
        · rw [if_pos hmax]
          exact ⟨i2, hmem⟩
        · rw [if_neg hmax]
          by_cases hearly :
              earliestTime (page.foldl dedupStep (acc, seen)).1 ≤ start_time
          · rw [if_pos hearly]
            exact ⟨i2, hmem⟩
          · rw [if_neg hearly]
            obtain ⟨j1, j2⟩ := ih (page.foldl dedupStep (acc, seen)).1
              (page.foldl dedupStep (acc, seen)).2
              (some ((earliestTime (page.foldl dedupStep (acc, seen)).1 : Int)
                - 1)) i1 i2
            refine ⟨j1, fun f hf => ?_⟩
            rcases j2 f hf with hf' | ⟨p, hp', hfp⟩
            · exact hmem f hf'
            · exact Or.inr ⟨p, List.mem_cons_of_mem page hp', hfp⟩

/-- C4: for every start time, end time and sequence of pages the endpoint
may return (overlapping pages included), the fills returned by the paginated
fetcher `user_fills_by_time` carry pairwise distinct trade ids. -/
theorem C4_fetched_fills_have_distinct_tids (start_time : Nat)
    (end_time : Option Int) (pages : List (List HFill)) :
    ((user_fills_by_time start_time end_time pages).map HFill.tid).Nodup := by
  have hinv := userFillsByTimeGo_inv start_time pages [] [] end_time
    (by simp) (by simp)
  rw [user_fills_by_time]
  exact ((sortDescByTime_perm
    (userFillsByTimeGo start_time pages [] [] end_time)).map
      HFill.tid).nodup_iff.mpr hinv.1

/-- C1: under the documented endpoint model (at most 2000 fills per page and
at most 10000 cumulative distinct trade ids across all pages the endpoint
serves), the paginated fetcher returns at most 10000 fills: dedup keys the
output on the at most 10000 distinct trade ids. -/
theorem C1_fetched_fills_at_most_10000 (start_time : Nat)
    (end_time : Option Int) (pages : List (List HFill))
    (hpages : ∀ page ∈ pages, page.length ≤ MAX_FILLS_PER_REQUEST)
    (hcum : (pages.flatten.map HFill.tid).dedup.length ≤ MAX_TOTAL_FILLS) :
    (user_fills_by_time start_time end_time pages).length
      ≤ MAX_TOTAL_FILLS := by
  have hinv := userFillsByTimeGo_inv start_time pages [] [] end_time
    (by simp) (by simp)
  have hlen : (user_fills_by_time start_time end_time pages).length
      = (userFillsByTimeGo start_time pages [] [] end_time).length := by
    rw [user_fills_by_time]
    exact (sortDescByTime_perm _).length_eq
  rw [hlen]
  have hsub : ∀ x ∈ (userFillsByTimeGo start_time pages [] []
      end_time).map HFill.tid, x ∈ pages.flatten.map HFill.tid := by
    intro x hx
    obtain ⟨f, hf, rfl⟩ := List.mem_map.mp hx
    rcases hinv.2 f hf with hacc | ⟨page, hpg, hfp⟩
    · simp at hacc
    · exact List.mem_map.mpr
        ⟨f, List.mem_flatten.mpr ⟨page, hpg, hfp⟩, rfl⟩
  calc (userFillsByTimeGo start_time pages [] [] end_time).length
      = ((userFillsByTimeGo start_time pages [] []
          end_time).map HFill.tid).length := (List.length_map _ _).symm
    _ = ((userFillsByTimeGo start_time pages [] []
          end_time).map HFill.tid).toFinset.card :=
        (List.toFinset_card_of_nodup hinv.1).symm
    _ ≤ (pages.flatten.map HFill.tid).toFinset.card :=
        Finset.card_le_card (fun x hx =>
          List.mem_toFinset.mpr (hsub x (List.mem_toFinset.mp hx)))
    _ = (pages.flatten.map HFill.tid).dedup.length := List.card_toFinset _
    _ ≤ MAX_TOTAL_FILLS := hcum

/-- Witness for C1: a one-page, one-fill endpoint run satisfies both
endpoint bounds, and the fetched list length is within the ceiling. -/
theorem C1_fetched_fills_at_most_10000_witness :
    (∀ page ∈ [[HFill.mk 5 1]], page.length ≤ MAX_FILLS_PER_REQUEST) ∧
    (([[HFill.mk 5 1]].flatten.map HFill.tid).dedup.length
      ≤ MAX_TOTAL_FILLS) ∧
    (user_fills_by_time 0 none [[HFill.mk 5 1]]).length ≤ MAX_TOTAL_FILLS :=
  ⟨by intro page hp; simp at hp; simp [hp, MAX_FILLS_PER_REQUEST],
   by simp [MAX_TOTAL_FILLS],
   C1_fetched_fills_at_most_10000 0 none [[HFill.mk 5 1]]
     (by intro page hp; simp at hp; simp [hp, MAX_FILLS_PER_REQUEST])
     (by simp [MAX_TOTAL_FILLS])⟩

/-! ## Claim C8 -/

theorem calcStep_offset (m : FillsByAsset) (s : PnLSummary) (a : Asset) :
    (calcStep m s a).realized_pnl
        = s.realized_pnl + (calcStep m PnLSummary.empty a).realized_pnl ∧
    (calcStep m s a).total_fees
        = s.total_fees + (calcStep m PnLSummary.empty a).total_fees ∧
    (calcStep m s a).fill_count
        = s.fill_count + (calcStep m PnLSummary.empty a).fill_count ∧
    (calcStep m s a).total_volume
        = s.total_volume + (calcStep m PnLSummary.empty a).total_volume := by
  unfold calcStep calcEntryStep
  cases hl : lookupFills m a <;> simp [hl, PnLSummary.empty]

theorem calcFold_offset (m : FillsByAsset) (l : List Asset) :
    ∀ s : PnLSummary,
      (l.foldl (calcStep m) s).realized_pnl
          = s.realized_pnl
            + (l.foldl (calcStep m) PnLSummary.empty).realized_pnl ∧
      (l.foldl (calcStep m) s).total_fees
          = s.total_fees
            + (l.foldl (calcStep m) PnLSummary.empty).total_fees ∧
      (l.foldl (calcStep m) s).fill_count
          = s.fill_count
            + (l.foldl (calcStep m) PnLSummary.empty).fill_count ∧
      (l.foldl (calcStep m) s).total_volume
          = s.total_volume
            + (l.foldl (calcStep m) PnLSummary.empty).total_volume := by
  induction l with
  | nil => intro s; simp [PnLSummary.empty]
  | cons a l ih =>
    intro s
    simp only [List.foldl_cons]
    obtain ⟨r1, r2, r3, r4⟩ := ih (calcStep m s a)
    obtain ⟨e1, e2, e3, e4⟩ := ih (calcStep m PnLSummary.empty a)
    obtain ⟨c1, c2, c3, c4⟩ := calcStep_offset m s a
    refine ⟨?_, ?_, ?_, ?_⟩
    · rw [r1, e1, c1]; ring
    · rw [r2, e2, c2]; ring
    · rw [r3, e3, c3]; omega
    · rw [r4, e4, c4]; ring

/-- C8: for disjoint asset filters A and B, `calculate_pnl` over their union
A ++ B yields a `realized_pnl` equal to the sum of the A-only and B-only
runs, and likewise for `total_fees`, `fill_count`, `total_volume` and
`net_pnl`. -/
theorem C8_pnl_additive_over_disjoint_filters (p : UserPnL)
    (A B : List Asset) (hdisj : A.Disjoint B) :
    (p.calculate_pnl (some (A ++ B))).realized_pnl
        = (p.calculate_pnl (some A)).realized_pnl
          + (p.calculate_pnl (some B)).realized_pnl ∧
    (p.calculate_pnl (some (A ++ B))).total_fees
        = (p.calculate_pnl (some A)).total_fees
          + (p.calculate_pnl (some B)).total_fees ∧
    (p.calculate_pnl (some (A ++ B))).fill_count
        = (p.calculate_pnl (some A)).fill_count
          + (p.calculate_pnl (some B)).fill_count ∧
    (p.calculate_pnl (some (A ++ B))).total_volume
        = (p.calculate_pnl (some A)).total_volume
          + (p.calculate_pnl (some B)).total_volume ∧
    (p.calculate_pnl (some (A ++ B))).net_pnl
        = (p.calculate_pnl (some A)).net_pnl
          + (p.calculate_pnl (some B)).net_pnl := by
  obtain ⟨k1, k2, k3, k4⟩ := calcFold_offset p.fills_by_asset B
    (A.foldl (calcStep p.fills_by_asset) PnLSummary.empty)
  simp only [UserPnL.calculate_pnl, List.foldl_append]
  refine ⟨?_, ?_, ?_, ?_, ?_⟩
  · exact k1
  · exact k2
  · exact k3
  · exact k4
  · rw [k1, k2]; ring

/-- Witness for C8: the singleton filters [BTC] and [ETH] are disjoint, and
realized pnl over their union splits into the two runs on the S2 store. -/
theorem C8_pnl_additive_over_disjoint_filters_witness :
    (([Asset.Btc] : List Asset).Disjoint [Asset.Eth]) ∧
    ((s2Store.calculate_pnl (some ([Asset.Btc] ++ [Asset.Eth]))).realized_pnl
      = (s2Store.calculate_pnl (some [Asset.Btc])).realized_pnl
        + (s2Store.calculate_pnl (some [Asset.Eth])).realized_pnl) :=
  ⟨by intro x hx hy; simp at hx; subst hx; simp at hy,
   (C8_pnl_additive_over_disjoint_filters s2Store [Asset.Btc] [Asset.Eth]
     (by intro x hx hy; simp at hx; subst hx; simp at hy)).1⟩

/-! ## Claim C6 -/

theorem assetPnlFold_fields (fills : List UserFill) :
    ∀ acc : AssetPnL,
      (fills.foldl assetPnlStep acc).realized_pnl
          = acc.realized_pnl + (fills.map UserFill.closed_pnl).sum ∧
      (fills.foldl assetPnlStep acc).fill_count
          = acc.fill_count + fills.length := by
  induction fills with
  | nil => intro acc; simp
  | cons f rest ih =>
    intro acc
    simp only [List.foldl_cons, List.map_cons, List.sum_cons,
      List.length_cons]
    obtain ⟨h1, h2⟩ := ih (assetPnlStep acc f)
    have hc1 : (assetPnlStep acc f).realized_pnl
        = acc.realized_pnl + f.closed_pnl := by simp [assetPnlStep]
    have hc2 : (assetPnlStep acc f).fill_count = acc.fill_count + 1 := by
      simp [assetPnlStep]
    constructor
    · rw [h1, hc1]; ring
    · rw [h2, hc2]; omega

theorem calculate_asset_pnl_fields (a : Asset) (fills : List UserFill) :
    (calculate_asset_pnl a fills).realized_pnl
        = (fills.map UserFill.closed_pnl).sum ∧
    (calculate_asset_pnl a fills).fill_count = fills.length := by
  obtain ⟨h1, h2⟩ := assetPnlFold_fields fills (AssetPnL.new a)
  constructor
  · show (fills.foldl assetPnlStep (AssetPnL.new a)).realized_pnl = _
    rw [h1]; simp [AssetPnL.new]
  · show (fills.foldl assetPnlStep (AssetPnL.new a)).fill_count = _
    rw [h2]; simp [AssetPnL.new]

theorem foldl_congr_mem {α β : Type} (f g : β → α → β) (l : List α)
    (hfg : ∀ a ∈ l, ∀ b, f b a = g b a) :
    ∀ init : β, l.foldl f init = l.foldl g init := by
  induction l with
  | nil => intro init; rfl
  | cons a l ih =>
    intro init
    simp only [List.foldl_cons]
    rw [hfg a (List.mem_cons_self a l) init]
    exact ih (fun x hx b => hfg x (List.mem_cons_of_mem a hx) b) _

theorem calc_foldl_keys (m : FillsByAsset) :
    ∀ (h : (m.map Prod.fst).Nodup) (init : PnLSummary),
      (m.map Prod.fst).foldl (calcStep m) init
        = m.foldl calcEntryStep init := by
  induction m with
  | nil => intro h init; simp
  | cons e rest ih =>
    obtain ⟨a, fs⟩ := e
    intro h init
    rw [List.map_cons, List.nodup_cons] at h
    simp only [List.map_cons, List.foldl_cons]
    have hstep : calcStep ((a, fs) :: rest) init a
        = calcEntryStep init (a, fs) := by
      simp [calcStep, lookupFills]
    have hext : ∀ k ∈ rest.map Prod.fst, ∀ b : PnLSummary,
        calcStep ((a, fs) :: rest) b k = calcStep rest b k := by
      intro k hk b
      have hak : ¬ a = k := fun hh => h.1 (by rw [hh]; exact hk)
      simp [calcStep, lookupFills, hak]
    rw [hstep, foldl_congr_mem _ _ _ hext, ih h.2]

theorem entryFold_fields (m : FillsByAsset) :
    ∀ s : PnLSummary,
      (m.foldl calcEntryStep s).realized_pnl
          = s.realized_pnl + ((storeFills m).map UserFill.closed_pnl).sum ∧
      (m.foldl calcEntryStep s).fill_count
          = s.fill_count + (storeFills m).length := by
  induction m with
  | nil => intro s; simp [storeFills]
  | cons e rest ih =>
    intro s
    simp only [List.foldl_cons]
    obtain ⟨h1, h2⟩ := ih (calcEntryStep s e)
    have hst : storeFills (e :: rest) = e.2 ++ storeFills rest := by
      simp [storeFills]
    have hc1 : (calcEntryStep s e).realized_pnl
        = s.realized_pnl + (e.2.map UserFill.closed_pnl).sum := by
      simp [calcEntryStep, (calculate_asset_pnl_fields e.1 e.2).1]
    have hc2 : (calcEntryStep s e).fill_count
        = s.fill_count + e.2.length := by
      simp [calcEntryStep, (calculate_asset_pnl_fields e.1 e.2).2]
    constructor
    · rw [h1, hc1, hst, List.map_append, List.sum_append]; ring
    · rw [h2, hc2, hst, List.length_append]; omega

theorem calculate_pnl_none_fields (p : UserPnL)
    (h : (p.fills_by_asset.map Prod.fst).Nodup) :
    (p.calculate_pnl none).realized_pnl
        = ((storeFills p.fills_by_asset).map UserFill.closed_pnl).sum ∧
    (p.calculate_pnl none).fill_count
        = (storeFills p.fills_by_asset).length := by
  have hkey := calc_foldl_keys p.fills_by_asset h PnLSummary.empty
  obtain ⟨h1, h2⟩ := entryFold_fields p.fills_by_asset PnLSummary.empty
  constructor
  · show ((p.fills_by_asset.map Prod.fst).foldl (calcStep p.fills_by_asset)
      PnLSummary.empty).realized_pnl = _
    rw [hkey, h1]; simp [PnLSummary.empty]
  · show ((p.fills_by_asset.map Prod.fst).foldl (calcStep p.fills_by_asset)
      PnLSummary.empty).fill_count = _
    rw [hkey, h2]; simp [PnLSummary.empty]

theorem pushFill_keys_mem (f : UserFill) :
    ∀ (m : FillsByAsset), ∀ x ∈ (pushFill m f).map Prod.fst,
      x ∈ m.map Prod.fst ∨ x = f.asset := by
  intro m
  induction m with
  | nil =>
    intro x hx
    simp [pushFill] at hx
    exact Or.inr hx
  | cons e rest ih =>
    obtain ⟨a, fs⟩ := e
    intro x hx
    by_cases haf : a = f.asset
    · simp only [pushFill, if_pos haf, List.map_cons] at hx
      exact Or.inl (by simpa using hx)
    · simp only [pushFill, if_neg haf, List.map_cons,
        List.mem_cons] at hx
      rcases hx with hx | hx
      · exact Or.inl (by simp [hx])
      · rcases ih x hx with hh | hh
        · exact Or.inl (List.mem_cons_of_mem _ hh)
        · exact Or.inr hh

theorem pushFill_keys_nodup (f : UserFill) :
    ∀ (m : FillsByAsset), (m.map Prod.fst).Nodup →
      ((pushFill m f).map Prod.fst).Nodup := by
  intro m
  induction m with
  | nil => intro _; simp [pushFill]
  | cons e rest ih =>
    obtain ⟨a, fs⟩ := e
    intro h
    rw [List.map_cons, List.nodup_cons] at h
    by_cases haf : a = f.asset
    · simp only [pushFill, if_pos haf, List.map_cons, List.nodup_cons]
      exact h
    · simp only [pushFill, if_neg haf, List.map_cons, List.nodup_cons]
      refine ⟨fun hmem => ?_, ih h.2⟩
      rcases pushFill_keys_mem f rest a hmem with hh | hh
      · exact h.1 hh
      · exact haf hh

theorem pushFill_store_stats (f : UserFill) :
    ∀ (m : FillsByAsset),
      (storeFills (pushFill m f)).length = (storeFills m).length + 1 ∧
      ((storeFills (pushFill m f)).map UserFill.closed_pnl).sum
          = ((storeFills m).map UserFill.closed_pnl).sum + f.closed_pnl := by
  intro m
  induction m with
  | nil => simp [pushFill, storeFills]
  | cons e rest ih =>
    obtain ⟨a, fs⟩ := e
    by_cases haf : a = f.asset
    · simp only [pushFill, if_pos haf]
      have h1 : storeFills ((a, fs ++ [f]) :: rest)
          = (fs ++ [f]) ++ storeFills rest := by simp [storeFills]
      have h2 : storeFills ((a, fs) :: rest) = fs ++ storeFills rest := by
        simp [storeFills]
      constructor
      · rw [h1, h2]; simp; omega
      · rw [h1, h2]
        simp only [List.map_append, List.sum_append, List.map_singleton,
          List.sum_cons, List.sum_nil]
        ring
    · simp only [pushFill, if_neg haf]
      have h1 : storeFills ((a, fs) :: pushFill rest f)
          = fs ++ storeFills (pushFill rest f) := by simp [storeFills]
      have h2 : storeFills ((a, fs) :: rest) = fs ++ storeFills rest := by
        simp [storeFills]
      constructor
      · rw [h1, h2]; simp only [List.length_append, ih.1]; omega
      · rw [h1, h2]
        simp only [List.map_append, List.sum_append, ih.2]
        ring

theorem rangeAddFold_stats (from_ms to_ms : Nat) (fills : List UserFill) :
    ∀ filt : UserPnL, (filt.fills_by_asset.map Prod.fst).Nodup →
      (((fills.foldl (rangeAddStep from_ms to_ms)
          filt).fills_by_asset).map Prod.fst).Nodup ∧
      (storeFills (fills.foldl (rangeAddStep from_ms to_ms)
          filt).fills_by_asset).length
        = (storeFills filt.fills_by_asset).length
          + (fills.filter (fun f => from_ms ≤ f.timestamp_ms ∧
              f.timestamp_ms ≤ to_ms)).length ∧
      ((storeFills (fills.foldl (rangeAddStep from_ms to_ms)
          filt).fills_by_asset).map UserFill.closed_pnl).sum
        = ((storeFills filt.fills_by_asset).map UserFill.closed_pnl).sum
          + (((fills.filter (fun f => from_ms ≤ f.timestamp_ms ∧
              f.timestamp_ms ≤ to_ms)).map UserFill.closed_pnl)).sum := by
  induction fills with
  | nil => intro filt h; simp [h]
  | cons f rest ih =>
    intro filt h
    simp only [List.foldl_cons, List.filter_cons]
    by_cases hc : from_ms ≤ f.timestamp_ms ∧ f.timestamp_ms ≤ to_ms
    · have hstep : rangeAddStep from_ms to_ms filt f = filt.add_fill f := by
        simp [rangeAddStep, hc]
      have hmap : (filt.add_fill f).fills_by_asset
          = pushFill filt.fills_by_asset f := rfl
      obtain ⟨i1, i2, i3⟩ := ih (filt.add_fill f)
        (by rw [hmap]; exact pushFill_keys_nodup f _ h)
      obtain ⟨p1, p2⟩ := pushFill_store_stats f filt.fills_by_asset
      rw [hstep]
      refine ⟨i1, ?_, ?_⟩
      · rw [i2, hmap, p1]
        simp [hc]
        omega
      · rw [i3, hmap, p2]
        simp [hc]
        ring
    · have hstep : rangeAddStep from_ms to_ms filt f = filt := by
        simp [rangeAddStep, hc]
      obtain ⟨i1, i2, i3⟩ := ih filt h
      rw [hstep]
      have hfilter : (if decide (from_ms ≤ f.timestamp_ms ∧
          f.timestamp_ms ≤ to_ms) = true then
            f :: rest.filter (fun f => from_ms ≤ f.timestamp_ms ∧
              f.timestamp_ms ≤ to_ms)
          else rest.filter (fun f => from_ms ≤ f.timestamp_ms ∧
              f.timestamp_ms ≤ to_ms))
          = rest.filter (fun f => from_ms ≤ f.timestamp_ms ∧
              f.timestamp_ms ≤ to_ms) := by
        simp [hc]
      rw [hfilter]
      exact ⟨i1, i2, i3⟩

theorem rangeOuterFold_stats (from_ms to_ms : Nat) :
    ∀ (entries : FillsByAsset) (filt : UserPnL),
      (filt.fills_by_asset.map Prod.fst).Nodup →
      (((entries.foldl (fun filt e =>
          e.2.foldl (rangeAddStep from_ms to_ms) filt)
          filt).fills_by_asset).map Prod.fst).Nodup ∧
      (storeFills (entries.foldl (fun filt e =>
          e.2.foldl (rangeAddStep from_ms to_ms) filt)
          filt).fills_by_asset).length
        = (storeFills filt.fills_by_asset).length
          + ((storeFills entries).filter (fun f =>
              from_ms ≤ f.timestamp_ms ∧ f.timestamp_ms ≤ to_ms)).length ∧
      ((storeFills (entries.foldl (fun filt e =>
          e.2.foldl (rangeAddStep from_ms to_ms) filt)
          filt).fills_by_asset).map UserFill.closed_pnl).sum
        = ((storeFills filt.fills_by_asset).map UserFill.closed_pnl).sum
          + ((((storeFills entries).filter (fun f =>
              from_ms ≤ f.timestamp_ms ∧ f.timestamp_ms ≤ to_ms)).map
              UserFill.closed_pnl)).sum := by
  intro entries
  induction entries with
  | nil => intro filt h; simp [storeFills, h]
  | cons e rest ih =>
    intro filt h
    simp only [List.foldl_cons]
    obtain ⟨a1, a2, a3⟩ := rangeAddFold_stats from_ms to_ms e.2 filt h
    obtain ⟨b1, b2, b3⟩ := ih (e.2.foldl (rangeAddStep from_ms to_ms) filt)
      a1
    have hst : storeFills (e :: rest) = e.2 ++ storeFills rest := by
      simp [storeFills]
    refine ⟨b1, ?_, ?_⟩
    · rw [b2, a2, hst, List.filter_append, List.length_append]
      omega
    · rw [b3, a3, hst, List.filter_append, List.map_append,
        List.sum_append]
      ring

theorem range_foldl_keys (m : FillsByAsset) (from_ms to_ms : Nat) :
    ∀ (h : (m.map Prod.fst).Nodup) (init : UserPnL),
      (m.map Prod.fst).foldl (rangeAssetStep m from_ms to_ms) init
        = m.foldl (fun filt e =>
            e.2.foldl (rangeAddStep from_ms to_ms) filt) init := by
  induction m with
  | nil => intro h init; simp
  | cons e rest ih =>
    obtain ⟨a, fs⟩ := e
    intro h init
    rw [List.map_cons, List.nodup_cons] at h
    simp only [List.map_cons, List.foldl_cons]
    have hstep : rangeAssetStep ((a, fs) :: rest) from_ms to_ms init a
        = fs.foldl (rangeAddStep from_ms to_ms) init := by
      simp [rangeAssetStep, lookupFills]
    have hext : ∀ k ∈ rest.map Prod.fst, ∀ b : UserPnL,
        rangeAssetStep ((a, fs) :: rest) from_ms to_ms b k
          = rangeAssetStep rest from_ms to_ms b k := by
      intro k hk b
      have hak : ¬ a = k := fun hh => h.1 (by rw [hh]; exact hk)
      simp [rangeAssetStep, lookupFills, hak]
    rw [hstep, foldl_congr_mem _ _ _ hext, ih h.2]

/-- C6: with no asset filter, `calculate_pnl_in_range` aggregates exactly
the stored fills whose timestamp satisfies from_ms <= timestamp_ms <= to_ms,
both endpoints inclusive: the fill count is the number of such fills and the
realized pnl is the sum of their closed_pnl. -/
theorem C6_pnl_in_range_inclusive_bounds (p : UserPnL)
    (from_ms to_ms : Nat)
    (h : (p.fills_by_asset.map Prod.fst).Nodup) :
    (p.calculate_pnl_in_range from_ms to_ms none).fill_count
        = ((storeFills p.fills_by_asset).filter (fun f =>
            from_ms ≤ f.timestamp_ms ∧ f.timestamp_ms ≤ to_ms)).length ∧
    (p.calculate_pnl_in_range from_ms to_ms none).realized_pnl
        = (((storeFills p.fills_by_asset).filter (fun f =>
            from_ms ≤ f.timestamp_ms ∧ f.timestamp_ms ≤ to_ms)).map
            UserFill.closed_pnl).sum := by
  have hkeys := range_foldl_keys p.fills_by_asset from_ms to_ms h
    (UserPnL.new p.user)
  obtain ⟨o1, o2, o3⟩ := rangeOuterFold_stats from_ms to_ms
    p.fills_by_asset (UserPnL.new p.user) (by simp [UserPnL.new])
  rw [← hkeys] at o1 o2 o3
  obtain ⟨c1, c2⟩ := calculate_pnl_none_fields
    ((p.fills_by_asset.map Prod.fst).foldl
      (rangeAssetStep p.fills_by_asset from_ms to_ms)
      (UserPnL.new p.user)) o1
  constructor
  · show (((p.fills_by_asset.map Prod.fst).foldl
        (rangeAssetStep p.fills_by_asset from_ms to_ms)
        (UserPnL.new p.user)).calculate_pnl none).fill_count = _
    rw [c2, o2]
    simp [UserPnL.new, storeFills]
  · show (((p.fills_by_asset.map Prod.fst).foldl
        (rangeAssetStep p.fills_by_asset from_ms to_ms)
        (UserPnL.new p.user)).calculate_pnl none).realized_pnl = _
    rw [c1, o3]
    simp [UserPnL.new, storeFills]

/-- Witness for C6: the S2 store has duplicate-free keys, and the range
query over [1500, 2500] keeps exactly one fill with realized pnl 50. -/
theorem C6_pnl_in_range_inclusive_bounds_witness :
    ((s2Store.fills_by_asset.map Prod.fst).Nodup) ∧
    (s2Store.calculate_pnl_in_range 1500 2500 none).fill_count = 1 ∧
    (s2Store.calculate_pnl_in_range 1500 2500 none).realized_pnl = 50 := by
  have hn : (s2Store.fills_by_asset.map Prod.fst).Nodup := by
    simp [s2Store, UserPnL.add_fill, UserPnL.new, pushFill, pnlFill]
  have h := C6_pnl_in_range_inclusive_bounds s2Store 1500 2500 hn
  refine ⟨hn, ?_, ?_⟩
  · rw [h.1]
    norm_num [s2Store, storeFills, UserPnL.add_fill, UserPnL.new, pushFill,
      pnlFill, List.filter_cons]
  · rw [h.2]
    norm_num [s2Store, storeFills, UserPnL.add_fill, UserPnL.new, pushFill,
      pnlFill, List.filter_cons]

end Ledger
